import Mathlib

set_option maxRecDepth 16384

/-!
Verification of the pg2mermaid SQL-subset parser (src/pg2mermaid/parser.py and
src/pg2mermaid/models.py) against its natural-language specification.

The embedding works over `List Char`. Python string operations (`str.strip`,
`str.split`, `str.upper`, …) are modelled for the ASCII fragment that the
parser's keyword tables and the claims exercise. The regular expressions of
parser.py are modelled operationally: each pattern becomes a deterministic
matcher with Python `re` semantics (leftmost search, greedy/lazy quantifiers,
greedy optional groups with their backtracking where the alternatives can
genuinely diverge), and `finditer` becomes repeated leftmost search resuming
after each match.
-/

/-- Abbreviation turning a string literal into the character list the model
works over. -/
def chars (s : String) : List Char := s.data

/-- Python `\s` / `str.split()` whitespace test, ASCII fragment. -/
def pyIsSpace (c : Char) : Bool :=
  c = ' ' || c = '\t' || c = '\n' || c = '\r' || c = '\x0b' || c = '\x0c'

/-- Python `str.upper` on one ASCII character. -/
def pyToUpper (c : Char) : Char :=
  if 'a' ≤ c ∧ c ≤ 'z' then Char.ofNat (c.toNat - 32) else c

/-- Python `str.lower` on one ASCII character. -/
def pyToLower (c : Char) : Char :=
  if 'A' ≤ c ∧ c ≤ 'Z' then Char.ofNat (c.toNat + 32) else c

/-- Python regex `\w` word-character test, ASCII fragment. -/
def isWordChar (c : Char) : Bool :=
  ('A' ≤ c ∧ c ≤ 'Z') || ('a' ≤ c ∧ c ≤ 'z') || ('0' ≤ c ∧ c ≤ '9') || c = '_'

/-- Python `str.upper` over a whole string. -/
def upperL (s : List Char) : List Char := s.map pyToUpper

/-- Python `str.lower` over a whole string. -/
def lowerL (s : List Char) : List Char := s.map pyToLower

/-- Python `str.lstrip()`. -/
def lstripL (s : List Char) : List Char := s.dropWhile pyIsSpace

/-- Python `str.rstrip()`. -/
def rstripL (s : List Char) : List Char := (s.reverse.dropWhile pyIsSpace).reverse

/-- Python `str.strip()`. -/
def stripL (s : List Char) : List Char := rstripL (lstripL s)

/-- Python `str.split()` with no argument: split on whitespace runs, dropping
empty pieces. `acc` carries the current word reversed. -/
def pyWordsGo (acc : List Char) : List Char → List (List Char)
  | [] => if acc.isEmpty then [] else [acc.reverse]
  | c :: rest =>
    if pyIsSpace c then
      if acc.isEmpty then pyWordsGo [] rest else acc.reverse :: pyWordsGo [] rest
    else pyWordsGo (c :: acc) rest

/-- Join a word list with single spaces. -/
def joinWordsGo : List (List Char) → List Char
  | [] => []
  | [w] => w
  | w :: ws => w ++ ' ' :: joinWordsGo ws

/-- Python `" ".join(s.split())`: collapse whitespace runs, trim the ends. -/
def joinWords (s : List Char) : List Char := joinWordsGo (pyWordsGo [] s)

/-- Substring test (Python `needle in hay`). -/
def isInfixL (needle : List Char) : List Char → Bool
  | [] => needle.isEmpty
  | c :: rest => needle.isPrefixOf (c :: rest) || isInfixL needle rest

/-- Case-insensitive substring test: Python `needle in hay.upper()` with an
upper-case needle. -/
def ciContains (needle hay : List Char) : Bool := isInfixL needle (upperL hay)

/-! ## Data model (src/pg2mermaid/models.py)

Python `dict` (insertion ordered, `d[k] = v` replaces in place) is modelled by
an association list with an insert-or-replace operation that keeps positions. -/

/-- Column of models.py: name, normalized type, nullability, raw default,
primary/foreign-key flags. -/
structure Column where
  name : List Char
  data_type : List Char
  nullable : Bool := true
  default : Option (List Char) := none
  is_primary_key : Bool := false
  is_foreign_key : Bool := false
deriving DecidableEq, Repr

/-- ForeignKey of models.py. -/
structure ForeignKey where
  columns : List (List Char)
  ref_schema : Option (List Char)
  ref_table : List Char
  ref_columns : List (List Char)
  constraint_name : Option (List Char) := none
  on_delete : Option (List Char) := none
  on_update : Option (List Char) := none
deriving DecidableEq, Repr

/-- Table of models.py. -/
structure Table where
  name : List Char
  schema : List Char
  columns : List Column := []
  primary_key : List (List Char) := []
  foreign_keys : List ForeignKey := []
  unique_constraints : List (List (List Char)) := []
deriving DecidableEq, Repr

/-- Schema of models.py: `tables` is the name-to-table dict. -/
structure Schema where
  name : List Char
  tables : List (List Char × Table) := []
deriving DecidableEq, Repr

/-- Database of models.py: `schemas` is the name-to-schema dict. -/
structure Database where
  schemas : List (List Char × Schema) := []
deriving DecidableEq, Repr

/-- Python `d[k] = v`: replace in place if `k` is present, else append. -/
def dictInsert (k : List Char) (v : α) : List (List Char × α) → List (List Char × α)
  | [] => [(k, v)]
  | (k', v') :: rest => if k' = k then (k', v) :: rest else (k', v') :: dictInsert k v rest

/-- Python `d.get(k)`. -/
def dictGet (k : List Char) : List (List Char × α) → Option α
  | [] => none
  | (k', v) :: rest => if k' = k then some v else dictGet k rest

/-- Table.get_column: first column with the given name, if any. -/
def Table.get_column (t : Table) (name : List Char) : Option Column :=
  t.columns.find? (fun c => c.name = name)

/-- Table.add_column. -/
def Table.add_column (t : Table) (c : Column) : Table :=
  { t with columns := t.columns ++ [c] }

/-- Helper for Table.set_primary_key: the in-place mutation
`col = get_column(name); if col: col.is_primary_key = True` sets the flag on
the first column carrying the name, leaving the list unchanged otherwise. -/
def markPrimaryGo (name : List Char) : List Column → List Column
  | [] => []
  | c :: rest =>
    if c.name = name then { c with is_primary_key := true } :: rest
    else c :: markPrimaryGo name rest

/-- Table.set_primary_key: overwrite the primary-key list, then mark each
listed column that is present. -/
def Table.set_primary_key (t : Table) (cols : List (List Char)) : Table :=
  { t with primary_key := cols,
           columns := cols.foldl (fun cs n => markPrimaryGo n cs) t.columns }

/-- Helper for Table.add_foreign_key: same in-place pattern for the
`is_foreign_key` flag. -/
def markForeignGo (name : List Char) : List Column → List Column
  | [] => []
  | c :: rest =>
    if c.name = name then { c with is_foreign_key := true } :: rest
    else c :: markForeignGo name rest

/-- Table.add_foreign_key: append the ForeignKey and mark its local columns. -/
def Table.add_foreign_key (t : Table) (fk : ForeignKey) : Table :=
  { t with foreign_keys := t.foreign_keys ++ [fk],
           columns := fk.columns.foldl (fun cs n => markForeignGo n cs) t.columns }

/-- Schema.add_table: `self.tables[table.name] = table`. -/
def Schema.add_table (s : Schema) (t : Table) : Schema :=
  { s with tables := dictInsert t.name t s.tables }

/-- Schema.get_table. -/
def Schema.get_table (s : Schema) (name : List Char) : Option Table :=
  dictGet name s.tables

/-- Database.get_schema: get-or-create; creation appends a fresh empty schema
under the given name. Returns the updated database with the found schema. -/
def Database.get_schema (db : Database) (name : List Char) : Database × Schema :=
  match dictGet name db.schemas with
  | some s => (db, s)
  | none => (⟨db.schemas ++ [(name, ⟨name, []⟩)]⟩, ⟨name, []⟩)

/-- Database.get_table: look up the schema, then the table. -/
def Database.get_table (db : Database) (schema name : List Char) : Option Table :=
  match dictGet schema db.schemas with
  | some s => s.get_table name
  | none => none

/-- Database.add_table: get-or-create the table's schema, then add the table
to it (the Python code mutates the schema object held by the dict; here the
mutated schema is written back under its key). -/
def Database.add_table (db : Database) (t : Table) : Database :=
  let (db', s) := db.get_schema t.schema
  ⟨dictInsert t.schema (s.add_table t) db'.schemas⟩

/-- Database.table_count. -/
def Database.table_count (db : Database) : Nat :=
  (db.schemas.map (fun p => p.2.tables.length)).sum

/-- Model of the ALTER pass's `table = db.get_table(...); <mutate table>`:
rewrite the one entry under (schema, name) through `f`. -/
def Database.modify_table (db : Database) (schema name : List Char) (f : Table → Table) :
    Database :=
  ⟨db.schemas.map (fun p =>
    if p.1 = schema then
      (p.1, { p.2 with tables := p.2.tables.map (fun q => if q.1 = name then (q.1, f q.2) else q) })
    else p)⟩

/-! ## Parser: string-level helpers (src/pg2mermaid/parser.py) -/

/-- Module constant DEFAULT_SCHEMA = "public". -/
def DEFAULT_SCHEMA : List Char := chars "public"

/-- parser._parse_qualified_name: strip double quotes, split on the first
dot; an unqualified name gets the default schema. -/
def parse_qualified_name (name : List Char) : List Char × List Char :=
  let n := name.filter (fun c => c ≠ '"')
  if n.contains '.' then
    (n.takeWhile (fun c => c ≠ '.'), (n.dropWhile (fun c => c ≠ '.')).tail)
  else (DEFAULT_SCHEMA, n)

/-- Scanner state of parser._split_definitions: parenthesis depth, the
in-string flag with its opening quote character, and the previous raw
character (for the backslash-escape check `body[i-1] != "\\"`). -/
structure ScanSt where
  depth : Int
  in_string : Bool
  string_char : Char
  prev : Option Char
deriving DecidableEq, Repr

/-- Initial scanner state. The placeholder `string_char` mirrors Python's
initial `string_char = ""`: it is never compared against before a quote
sets it, because `in_string` starts out false. -/
def scanInit : ScanSt := ⟨0, false, 'x', none⟩

/-- Quote-toggle step of _split_definitions: an unescaped quote character
opens a string, and closes it only when it matches the opening quote. -/
def scanQuote (st : ScanSt) (c : Char) : Bool × Char :=
  if (c = '\'' ∨ c = '"') ∧ st.prev ≠ some '\\' then
    if ¬ st.in_string then (true, c)
    else if c = st.string_char then (false, st.string_char)
    else (st.in_string, st.string_char)
  else (st.in_string, st.string_char)

/-- Full per-character state transition of _split_definitions: quote toggle
first, then depth bookkeeping outside strings (the comma branch changes no
state besides `prev`, so this transition covers it too). -/
def scanStep (st : ScanSt) (c : Char) : ScanSt :=
  let (ins, sc) := scanQuote st c
  if ¬ ins then
    if c = '(' then ⟨st.depth + 1, ins, sc, some c⟩
    else if c = ')' then ⟨st.depth - 1, ins, sc, some c⟩
    else ⟨st.depth, ins, sc, some c⟩
  else ⟨st.depth, ins, sc, some c⟩

/-- Main loop of parser._split_definitions. `current` holds the pending
definition reversed. A comma splits only at depth 0 outside strings; the
trailing piece is appended only when non-empty, every piece is stripped. -/
def split_defs_go (current : List Char) (st : ScanSt) : List Char → List (List Char)
  | [] => if current = [] then [] else [stripL current.reverse]
  | c :: rest =>
    let (ins, _) := scanQuote st c
    if ¬ ins ∧ c = ',' ∧ st.depth = 0 then
      stripL current.reverse :: split_defs_go [] (scanStep st c) rest
    else
      split_defs_go (c :: current) (scanStep st c) rest

/-- parser._split_definitions. -/
def split_definitions (body : List Char) : List (List Char) :=
  split_defs_go [] scanInit body

/-- Table-constraint keywords of parser._is_table_constraint. -/
def table_constraint_keywords : List (List Char) :=
  [chars "PRIMARY KEY", chars "FOREIGN KEY", chars "UNIQUE",
   chars "CHECK", chars "EXCLUDE", chars "CONSTRAINT"]

/-- parser._is_table_constraint: upper-case, strip the left end, test the
keyword prefixes. -/
def is_table_constraint (d : List Char) : Bool :=
  let upper := lstripL (upperL d)
  table_constraint_keywords.any (fun kw => kw.isPrefixOf upper)

/-- Constraint keywords of parser._extract_type_and_constraints. -/
def column_constraint_keywords : List (List Char) :=
  [chars "NOT NULL", chars "NULL", chars "DEFAULT", chars "PRIMARY KEY",
   chars "UNIQUE", chars "REFERENCES", chars "CHECK", chars "COLLATE",
   chars "CONSTRAINT", chars "GENERATED"]

/-- Does the regex `\b<kw>\b` (case-insensitive) match at the head of `s`,
given the character just before `s`? Every keyword starts and ends with a
letter, so the boundaries demand a non-word neighbour on each side. -/
def kwMatchAt (kw s : List Char) (prev : Option Char) : Bool :=
  kw.isPrefixOf (upperL s)
  && (match prev with | none => true | some p => !(isWordChar p))
  && (match s.drop kw.length with | [] => true | c :: _ => !(isWordChar c))

/-- Position of the first whole-word, case-insensitive occurrence of `kw`. -/
def findKwGo (kw : List Char) (prev : Option Char) : List Char → Option Nat
  | [] => none
  | c :: rest =>
    if kwMatchAt kw (c :: rest) prev then some 0
    else (findKwGo kw (some c) rest).map (· + 1)

/-- parser._extract_type_and_constraints: cut at the earliest first match of
any constraint keyword (default: the end), strip both parts. -/
def extract_type_and_constraints (rest : List Char) : List Char × List Char :=
  let min_pos := column_constraint_keywords.foldl
    (fun m kw =>
      match findKwGo kw none rest with
      | some p => if p < m then p else m
      | none => m)
    rest.length
  (stripL (rest.take min_pos), stripL (rest.drop min_pos))

/-- Ordered verbose-to-short type table of parser._normalize_type. -/
def type_map : List (List Char × List Char) :=
  [(chars "CHARACTER VARYING", chars "varchar"),
   (chars "CHARACTER", chars "char"),
   (chars "INTEGER", chars "int"),
   (chars "BIGINT", chars "bigint"),
   (chars "SMALLINT", chars "smallint"),
   (chars "BOOLEAN", chars "bool"),
   (chars "DOUBLE PRECISION", chars "float8"),
   (chars "REAL", chars "float4"),
   (chars "TIMESTAMP WITHOUT TIME ZONE", chars "timestamp"),
   (chars "TIMESTAMP WITH TIME ZONE", chars "timestamptz"),
   (chars "TIME WITHOUT TIME ZONE", chars "time"),
   (chars "TIME WITH TIME ZONE", chars "timetz")]

/-- First-match loop of parser._normalize_type: on a case-insensitive prefix
match the short form replaces the matched prefix, keeping the suffix; with
no match the whole string is lower-cased. -/
def normalize_go (d : List Char) : List (List Char × List Char) → List Char
  | [] => lowerL d
  | (long, short) :: rest =>
    if long.isPrefixOf (upperL d) then short ++ d.drop long.length
    else normalize_go d rest

/-- parser._normalize_type: collapse whitespace runs, then map through the
ordered type table. -/
def normalize_type (dt : List Char) : List Char :=
  normalize_go (joinWords dt) type_map

/-! ## Operational model of the regular expressions

Each pattern of parser.py becomes a matcher `List Char → Option (α × List Char)`
returning the captured groups and the text after the match. `re.search` is
leftmost trial over start positions; `re.finditer` repeats the search from the
end of each match (every pattern here consumes at least one character per
match, so the fuel `s.length` is never the binding constraint). -/

/-- Case-insensitive literal (`re.IGNORECASE` on a keyword). -/
def litCIGo : List Char → List Char → Option (List Char)
  | [], s => some s
  | _ :: _, [] => none
  | k :: ks, c :: cs => if pyToUpper c = pyToUpper k then litCIGo ks cs else none

/-- Case-insensitive literal, from a string. -/
def litCI (k : String) (s : List Char) : Option (List Char) := litCIGo k.data s

/-- One required character. -/
def chLit (c : Char) : List Char → Option (List Char)
  | [] => none
  | x :: rest => if x = c then some rest else none

/-- Greedy `p`-run of length at least one (e.g. `[^\s(]+`); returns the run
and the remainder. The following pattern elements in parser.py can never
match a character admitted by the run, so the maximal run is exact. -/
def takeWhile1 (p : Char → Bool) (s : List Char) : Option (List Char × List Char) :=
  let w := s.takeWhile p
  if w.isEmpty then none else some (w, s.drop w.length)

/-- Greedy `\s+`: returns the consumed whitespace (needed where a capture
spans it) and the remainder. -/
def ws1 (s : List Char) : Option (List Char × List Char) :=
  takeWhile1 pyIsSpace s

/-- re.search: try the matcher at each start position, leftmost wins. -/
def reSearchGo (m : List Char → Option α) : List Char → Option α
  | [] => m []
  | c :: rest =>
    match m (c :: rest) with
    | some r => some r
    | none => reSearchGo m rest

/-- re.finditer driver: repeated leftmost search, resuming after each match;
the fuel bounds the number of matches by the input length. -/
def reFindIterGo (m : List Char → Option (α × List Char)) : Nat → List Char → List α
  | 0, _ => []
  | Nat.succ fuel, s =>
    match reSearchGo m s with
    | none => []
    | some (a, rest) => a :: reFindIterGo m fuel rest

/-- re.finditer. -/
def reFinditer (m : List Char → Option (α × List Char)) (s : List Char) : List α :=
  reFindIterGo m s.length s

/-! ## Default-value extraction (parser._extract_default) -/

/-- Backtracking scan of the quoted-literal alternative `q(?:[^q]|qq)*q`:
given the text after the opening quote, the length (content plus closing
quote) of the greedy (longest) match, if any. A doubled `qq` records the
shorter close-here option and reads on; a lone `q` closes and nothing
longer can ever pass it. -/
def sqLitScan (q : Char) : List Char → Nat → Option Nat → Option Nat
  | [], _, best => best
  | [c], pos, best => if c = q then some (pos + 1) else best
  | c :: c' :: rest, pos, best =>
    if c = q then
      if c' = q then sqLitScan q rest (pos + 2) (some (pos + 1))
      else some (pos + 1)
    else sqLitScan q (c' :: rest) (pos + 1) best

/-- Quoted-literal alternative of _extract_default; the capture keeps the
quotes, as the regex group does. -/
def matchQuotedLit (q : Char) : List Char → Option (List Char × List Char)
  | [] => none
  | c :: rest =>
    if c = q then
      match sqLitScan q rest 0 none with
      | some len => some (q :: rest.take len, rest.drop len)
      | none => none
    else none

/-- Parenthesized-expression alternative `\([^)]+\)` of _extract_default. -/
def matchParenExpr : List Char → Option (List Char × List Char)
  | '(' :: rest =>
    let inner := rest.takeWhile (fun c => c ≠ ')')
    if inner.isEmpty then none
    else
      match rest.drop inner.length with
      | ')' :: r => some ('(' :: inner ++ [')'], r)
      | _ => none
  | _ => none

/-- The whole `DEFAULT\s+(...)` pattern at one position: the literal, the
whitespace, then the four alternatives in the regex's order. -/
def matchDefaultAt (s : List Char) : Option (List Char × List Char) :=
  match litCI "DEFAULT" s with
  | none => none
  | some s =>
  match ws1 s with
  | none => none
  | some (_, s) =>
  match matchQuotedLit '\'' s with
  | some r => some r
  | none =>
  match matchQuotedLit '"' s with
  | some r => some r
  | none =>
  match matchParenExpr s with
  | some r => some r
  | none => takeWhile1 (fun c => !(pyIsSpace c) && c ≠ ',' && c ≠ ')') s

/-- parser._extract_default: first match anywhere in the constraints tail. -/
def extract_default (constraints : List Char) : Option (List Char) :=
  (reSearchGo matchDefaultAt constraints).map Prod.fst

/-! ## Column parsing (parser._parse_column) -/

/-- parser._parse_column. The name pattern `^"?([^"\s]+)"?\s+(.+)$` is
deterministic on its admissible inputs: the optional quotes consume a quote
exactly when one is present (the name class excludes quotes and whitespace,
so no backtracking alternative can ever succeed where this reading fails). -/
def parse_column (definition : List Char) : Option Column :=
  let d := stripL definition
  if d.isEmpty then none
  else
    let s0 := match d with | '"' :: r => r | _ => d
    match takeWhile1 (fun c => c ≠ '"' && !(pyIsSpace c)) s0 with
    | none => none
    | some (name, s1) =>
      let s2 := match s1 with | '"' :: r => r | _ => s1
      match ws1 s2 with
      | none => none
      | some (_, s3) =>
        if s3.isEmpty then none
        else
          let rest := stripL s3
          let (dt, constraints) := extract_type_and_constraints rest
          if dt.isEmpty then none
          else
            some { name := name
                 , data_type := normalize_type dt
                 , nullable := !(ciContains (chars "NOT NULL") constraints)
                 , default := extract_default constraints
                 , is_primary_key := ciContains (chars "PRIMARY KEY") constraints
                 , is_foreign_key := false }

/-- Split on every comma (Python `str.split(",")`); at least one piece. -/
def split_on_comma : List Char → List (List Char)
  | [] => [[]]
  | c :: rest =>
    let r := split_on_comma rest
    if c = ',' then [] :: r
    else
      match r with
      | s :: ss => (c :: s) :: ss
      | [] => [[c]]

/-- parser._parse_column_list: split on commas, strip, drop quotes, keep the
non-empty results. -/
def parse_column_list (s : List Char) : List (List Char) :=
  (split_on_comma s).foldr
    (fun col acc =>
      let c := (stripL col).filter (fun ch => ch ≠ '"')
      if c.isEmpty then acc else c :: acc)
    []

/-! ## Table-level constraint application (parser._apply_*_constraint) -/

/-- The pattern `PRIMARY\s+KEY\s*\(([^)]+)\)` at one position; captures the
raw column list. -/
def matchPrimaryKeyAt (s : List Char) : Option (List Char × List Char) :=
  match litCI "PRIMARY" s with
  | none => none
  | some s =>
  match ws1 s with
  | none => none
  | some (_, s) =>
  match litCI "KEY" s with
  | none => none
  | some s =>
  match chLit '(' (s.dropWhile pyIsSpace) with
  | none => none
  | some s =>
  match takeWhile1 (fun c => c ≠ ')') s with
  | none => none
  | some (inner, s) =>
  match chLit ')' s with
  | none => none
  | some s => some (inner, s)

/-- parser._apply_primary_key_constraint. -/
def apply_primary_key_constraint (t : Table) (constraint : List Char) : Table :=
  match reSearchGo matchPrimaryKeyAt constraint with
  | some (inner, _) => t.set_primary_key (parse_column_list inner)
  | none => t

/-- Captured groups of the FOREIGN KEY patterns (table-level and ALTER-level
share the `FOREIGN KEY ... REFERENCES ... [ON DELETE ...] [ON UPDATE ...]`
tail verbatim). -/
structure FkGroups where
  constraint_name : Option (List Char)
  columns_raw : List Char
  ref_table_raw : List Char
  ref_columns_raw : List Char
  on_delete : Option (List Char)
  on_update : Option (List Char)
deriving DecidableEq, Repr

/-- The action capture `(\w+(?:\s+\w+)?)`: one word, greedily extended by a
second word when whitespace and a word follow — even when that second word
is the `ON` of a following `ON UPDATE` clause, exactly as the greedy Python
regex behaves (nothing after it can fail, so the engine never gives the
second word back). -/
def matchActionWord (s : List Char) : Option (List Char × List Char) :=
  match takeWhile1 isWordChar s with
  | none => none
  | some (w1, s1) =>
  match ws1 s1 with
  | none => some (w1, s1)
  | some (sp, a) =>
  match takeWhile1 isWordChar a with
  | none => some (w1, s1)
  | some (w2, a) => some (w1 ++ sp ++ w2, a)

/-- One optional `\s+ON\s+<kw>\s+(action)` group. -/
def matchOnClause (kw : String) (s : List Char) : Option (List Char × List Char) :=
  match ws1 s with
  | none => none
  | some (_, a) =>
  match litCI "ON" a with
  | none => none
  | some a =>
  match ws1 a with
  | none => none
  | some (_, a) =>
  match litCI kw a with
  | none => none
  | some a =>
  match ws1 a with
  | none => none
  | some (_, a) => matchActionWord a

/-- The tail `FOREIGN\s+KEY\s*\(([^)]+)\)\s*REFERENCES\s+([^\s(]+)\s*\(([^)]+)\)`
with the two optional ON clauses, at one position. -/
def matchForeignKeyCore (cname : Option (List Char)) (s : List Char) :
    Option (FkGroups × List Char) :=
  match litCI "FOREIGN" s with
  | none => none
  | some s =>
  match ws1 s with
  | none => none
  | some (_, s) =>
  match litCI "KEY" s with
  | none => none
  | some s =>
  match chLit '(' (s.dropWhile pyIsSpace) with
  | none => none
  | some s =>
  match takeWhile1 (fun c => c ≠ ')') s with
  | none => none
  | some (cols, s) =>
  match chLit ')' s with
  | none => none
  | some s =>
  match litCI "REFERENCES" (s.dropWhile pyIsSpace) with
  | none => none
  | some s =>
  match ws1 s with
  | none => none
  | some (_, s) =>
  match takeWhile1 (fun c => !(pyIsSpace c) && c ≠ '(') s with
  | none => none
  | some (rtab, s) =>
  match chLit '(' (s.dropWhile pyIsSpace) with
  | none => none
  | some s =>
  match takeWhile1 (fun c => c ≠ ')') s with
  | none => none
  | some (rcols, s) =>
  match chLit ')' s with
  | none => none
  | some s =>
  match matchOnClause "DELETE" s with
  | some (actD, s) =>
    (match matchOnClause "UPDATE" s with
     | some (actU, s) => some (⟨cname, cols, rtab, rcols, some actD, some actU⟩, s)
     | none => some (⟨cname, cols, rtab, rcols, some actD, none⟩, s))
  | none =>
    (match matchOnClause "UPDATE" s with
     | some (actU, s) => some (⟨cname, cols, rtab, rcols, none, some actU⟩, s)
     | none => some (⟨cname, cols, rtab, rcols, none, none⟩, s))

/-- The optional prefix `CONSTRAINT\s+"?(\w+)"?\s+`. -/
def matchConstraintNameAt (s : List Char) : Option (List Char × List Char) :=
  match litCI "CONSTRAINT" s with
  | none => none
  | some s =>
  match ws1 s with
  | none => none
  | some (_, s) =>
  let s := match s with | '"' :: r => r | _ => s
  match takeWhile1 isWordChar s with
  | none => none
  | some (nm, s) =>
  let s := match s with | '"' :: r => r | _ => s
  match ws1 s with
  | none => none
  | some (_, s) => some (nm, s)

/-- Table-level FOREIGN KEY pattern at one position: the greedy optional
CONSTRAINT prefix is tried first, the bare tail second (Python's
backtracking order). -/
def matchForeignKeyAt (s : List Char) : Option (FkGroups × List Char) :=
  match matchConstraintNameAt s with
  | some (nm, a) =>
    (match matchForeignKeyCore (some nm) a with
     | some r => some r
     | none => matchForeignKeyCore none s)
  | none => matchForeignKeyCore none s

/-- parser._apply_foreign_key_constraint: build the ForeignKey from the
captured groups; the referenced schema is stored only when it differs from
the default schema. -/
def apply_foreign_key_constraint (t : Table) (constraint : List Char) : Table :=
  match reSearchGo matchForeignKeyAt constraint with
  | none => t
  | some (g, _) =>
    let columns := parse_column_list g.columns_raw
    let ref_table := g.ref_table_raw.filter (fun c => c ≠ '"')
    let (ref_schema, ref_name) := parse_qualified_name ref_table
    t.add_foreign_key
      { columns := columns
      , ref_schema := if ref_schema ≠ DEFAULT_SCHEMA then some ref_schema else none
      , ref_table := ref_name
      , ref_columns := parse_column_list g.ref_columns_raw
      , constraint_name := g.constraint_name
      , on_delete := g.on_delete
      , on_update := g.on_update }

/-- The pattern `UNIQUE\s*\(([^)]+)\)` at one position. -/
def matchUniqueAt (s : List Char) : Option (List Char × List Char) :=
  match litCI "UNIQUE" s with
  | none => none
  | some s =>
  match chLit '(' (s.dropWhile pyIsSpace) with
  | none => none
  | some s =>
  match takeWhile1 (fun c => c ≠ ')') s with
  | none => none
  | some (inner, s) =>
  match chLit ')' s with
  | none => none
  | some s => some (inner, s)

/-- parser._apply_unique_constraint. -/
def apply_unique_constraint (t : Table) (constraint : List Char) : Table :=
  match reSearchGo matchUniqueAt constraint with
  | some (inner, _) =>
    { t with unique_constraints := t.unique_constraints ++ [parse_column_list inner] }
  | none => t

/-- parser._apply_table_constraint: dispatch on case-insensitive substring
containment, in the source's order. -/
def apply_table_constraint (t : Table) (constraint : List Char) : Table :=
  if ciContains (chars "PRIMARY KEY") constraint then
    apply_primary_key_constraint t constraint
  else if ciContains (chars "FOREIGN KEY") constraint then
    apply_foreign_key_constraint t constraint
  else if ciContains (chars "UNIQUE") constraint then
    apply_unique_constraint t constraint
  else t

/-- Loop body of parser._parse_table: strip the definition, skip it when
empty, queue a table-level constraint, otherwise add the parsed column. -/
def parse_table_step (acc : Table × List (List Char)) (d0 : List Char) :
    Table × List (List Char) :=
  if (stripL d0).isEmpty then acc
  else if is_table_constraint (stripL d0) then (acc.1, acc.2 ++ [stripL d0])
  else
    match parse_column (stripL d0) with
    | some col => (acc.1.add_column col, acc.2)
    | none => acc

/-- parser._parse_table: split the body, add columns as they come, collect
table-level constraints, then apply the constraints in order. (The source's
`Table | None` return is always a table.) -/
def parse_table (qualified_name body : List Char) : Table :=
  let (schema, name) := parse_qualified_name qualified_name
  let res := (split_definitions body).foldl parse_table_step
    (⟨name, schema, [], [], [], []⟩, [])
  res.2.foldl apply_table_constraint res.1

/-! ## Statement extractor (parser._parse_create_tables)

The pattern is `CREATE\s+(?:UNLOGGED\s+)?TABLE\s+(?:IF\s+NOT\s+EXISTS\s+)?`
`([^\s(]+)\s*\(\s*(.*?)\)\s*;` with IGNORECASE and DOTALL. The lazy body
`(.*?)` stops at the EARLIEST `)` that is followed by optional whitespace
and a `;` — the scan is blind to string literals. -/

/-- Lazy `(.*?)\)\s*;`: shortest body prefix whose next characters are `)`,
optional whitespace, `;`. Returns the body and the text after the `;`. -/
def lazyBodyGo : List Char → Option (List Char × List Char)
  | [] => none
  | c :: rest =>
    if c = ')' then
      match (match rest.dropWhile pyIsSpace with
             | ';' :: r => some r
             | _ => none) with
      | some r => some (([] : List Char), r)
      | none => (lazyBodyGo rest).map (fun p => (c :: p.1, p.2))
    else (lazyBodyGo rest).map (fun p => (c :: p.1, p.2))

/-- The optional group `(?:UNLOGGED\s+)?`: consumed when it matches whole,
skipped otherwise. -/
def matchUnloggedOpt (s : List Char) : List Char :=
  match litCI "UNLOGGED" s with
  | none => s
  | some a =>
    (match ws1 a with
     | none => s
     | some (_, a) => a)

/-- The optional group `(?:IF\s+NOT\s+EXISTS\s+)?`. -/
def matchIfNotExistsOpt (s : List Char) : List Char :=
  match litCI "IF" s with
  | none => s
  | some a =>
  match ws1 a with
  | none => s
  | some (_, a) =>
  match litCI "NOT" a with
  | none => s
  | some a =>
  match ws1 a with
  | none => s
  | some (_, a) =>
  match litCI "EXISTS" a with
  | none => s
  | some a =>
  match ws1 a with
  | none => s
  | some (_, a) => a

/-- The CREATE TABLE pattern at one position: captures (qualified name, raw
body). The two optional keyword groups commit greedily; skipping them could
only matter if the following literal also matched, which the distinct first
letters rule out. -/
def matchCreateTable (s : List Char) : Option ((List Char × List Char) × List Char) :=
  match litCI "CREATE" s with
  | none => none
  | some s =>
  match ws1 s with
  | none => none
  | some (_, s) =>
  match litCI "TABLE" (matchUnloggedOpt s) with
  | none => none
  | some s =>
  match ws1 s with
  | none => none
  | some (_, s) =>
  match takeWhile1 (fun c => !(pyIsSpace c) && c ≠ '(') (matchIfNotExistsOpt s) with
  | none => none
  | some (name, s) =>
  match chLit '(' (s.dropWhile pyIsSpace) with
  | none => none
  | some s =>
  match lazyBodyGo (s.dropWhile pyIsSpace) with
  | none => none
  | some (body, s) => some ((name, body), s)

/-- parser._parse_create_tables: every match of the pattern, in order. -/
def parse_create_tables (sql : List Char) : List (List Char × List Char) :=
  reFinditer matchCreateTable sql

/-! ## ALTER TABLE pass (parser._parse_alter_tables)

Three independent finditer scans over the raw text: PRIMARY KEY, then
FOREIGN KEY, then UNIQUE. Each pattern starts with
`ALTER\s+TABLE\s+(?:ONLY\s+)?([^\s]+)\s+ADD\s+CONSTRAINT\s+`; the greedy
optional `ONLY` group backtracks (a table literally named `only` is matched
by the name group on the second attempt), so both readings are tried. -/

/-- Captured groups of the ALTER ... PRIMARY KEY pattern. -/
structure AlterPkGroups where
  table_raw : List Char
  cols_raw : List Char
deriving DecidableEq, Repr

/-- The shared prefix `ALTER\s+TABLE\s+` of the three ALTER patterns. -/
def matchAlterTablePre (s : List Char) : Option (List Char) :=
  match litCI "ALTER" s with
  | none => none
  | some s =>
  match ws1 s with
  | none => none
  | some (_, s) =>
  match litCI "TABLE" s with
  | none => none
  | some s =>
  match ws1 s with
  | none => none
  | some (_, s) => some s

/-- The shared piece `([^\s]+)\s+ADD\s+CONSTRAINT\s+` of the three ALTER
patterns: captures the table-name group. -/
def matchAddConstraintPre (s : List Char) : Option (List Char × List Char) :=
  match takeWhile1 (fun c => !(pyIsSpace c)) s with
  | none => none
  | some (tname, a) =>
  match ws1 a with
  | none => none
  | some (_, a) =>
  match litCI "ADD" a with
  | none => none
  | some a =>
  match ws1 a with
  | none => none
  | some (_, a) =>
  match litCI "CONSTRAINT" a with
  | none => none
  | some a =>
  match ws1 a with
  | none => none
  | some (_, a) => some (tname, a)

/-- The ALTER ... PRIMARY KEY pattern from the table-name group on (the part
after the optional `ONLY`). -/
def matchAlterPkTail (s : List Char) : Option (AlterPkGroups × List Char) :=
  match matchAddConstraintPre s with
  | none => none
  | some (tname, a) =>
  match takeWhile1 (fun c => !(pyIsSpace c)) a with
  | none => none
  | some (_, a) =>
  match ws1 a with
  | none => none
  | some (_, a) =>
  match matchPrimaryKeyAt a with
  | none => none
  | some (inner, a) => some (⟨tname, inner⟩, a)

/-- The ALTER ... PRIMARY KEY pattern at one position: the greedy optional
`(?:ONLY\s+)?` is tried first; on failure of the rest the name group gets to
match the word `ONLY` itself. -/
def matchAlterPkAt (s : List Char) : Option (AlterPkGroups × List Char) :=
  match matchAlterTablePre s with
  | none => none
  | some s =>
  match (match litCI "ONLY" s with
         | none => none
         | some a =>
           (match ws1 a with
            | none => none
            | some (_, a) => matchAlterPkTail a)) with
  | some r => some r
  | none => matchAlterPkTail s

/-- Captured groups of the ALTER ... FOREIGN KEY pattern. -/
structure AlterFkGroups where
  table_raw : List Char
  constraint_name : List Char
  columns_raw : List Char
  ref_table_raw : List Char
  ref_columns_raw : List Char
  on_delete : Option (List Char)
  on_update : Option (List Char)
deriving DecidableEq, Repr

/-- The ALTER ... FOREIGN KEY pattern from the table-name group on: after
`ADD\s+CONSTRAINT\s+` come `"?(\w+)"?\s+` and the FOREIGN KEY tail shared
with the table-level pattern. -/
def matchAlterFkTail (s : List Char) : Option (AlterFkGroups × List Char) :=
  match matchAddConstraintPre s with
  | none => none
  | some (tname, a) =>
  let a := match a with | '"' :: r => r | _ => a
  match takeWhile1 isWordChar a with
  | none => none
  | some (cname, a) =>
  let a := match a with | '"' :: r => r | _ => a
  match ws1 a with
  | none => none
  | some (_, a) =>
  match matchForeignKeyCore none a with
  | none => none
  | some (g, a) =>
    some (⟨tname, cname, g.columns_raw, g.ref_table_raw, g.ref_columns_raw,
           g.on_delete, g.on_update⟩, a)

/-- The ALTER ... FOREIGN KEY pattern at one position, with the `ONLY`
backtracking of the PRIMARY KEY pattern. -/
def matchAlterFkAt (s : List Char) : Option (AlterFkGroups × List Char) :=
  match matchAlterTablePre s with
  | none => none
  | some s =>
  match (match litCI "ONLY" s with
         | none => none
         | some a =>
           (match ws1 a with
            | none => none
            | some (_, a) => matchAlterFkTail a)) with
  | some r => some r
  | none => matchAlterFkTail s

/-- Captured groups of the ALTER ... UNIQUE pattern. -/
structure AlterUniqueGroups where
  table_raw : List Char
  cols_raw : List Char
deriving DecidableEq, Repr

/-- The ALTER ... UNIQUE pattern from the table-name group on. -/
def matchAlterUniqueTail (s : List Char) : Option (AlterUniqueGroups × List Char) :=
  match matchAddConstraintPre s with
  | none => none
  | some (tname, a) =>
  match takeWhile1 (fun c => !(pyIsSpace c)) a with
  | none => none
  | some (_, a) =>
  match ws1 a with
  | none => none
  | some (_, a) =>
  match matchUniqueAt a with
  | none => none
  | some (inner, a) => some (⟨tname, inner⟩, a)

/-- The ALTER ... UNIQUE pattern at one position, with the `ONLY`
backtracking of the PRIMARY KEY pattern. -/
def matchAlterUniqueAt (s : List Char) : Option (AlterUniqueGroups × List Char) :=
  match matchAlterTablePre s with
  | none => none
  | some s =>
  match (match litCI "ONLY" s with
         | none => none
         | some a =>
           (match ws1 a with
            | none => none
            | some (_, a) => matchAlterUniqueTail a)) with
  | some r => some r
  | none => matchAlterUniqueTail s

/-- Application of one ALTER ... PRIMARY KEY match: look the table up by
qualified name; a missing table drops the clause silently. -/
def apply_alter_pk (db : Database) (g : AlterPkGroups) : Database :=
  let table_name := g.table_raw.filter (fun c => c ≠ '"')
  let cols := parse_column_list g.cols_raw
  let (schema, name) := parse_qualified_name table_name
  match db.get_table schema name with
  | some _ => db.modify_table schema name (fun t => t.set_primary_key cols)
  | none => db

/-- Application of one ALTER ... FOREIGN KEY match; the ForeignKey is built
exactly as at the table level. -/
def apply_alter_fk (db : Database) (g : AlterFkGroups) : Database :=
  let table_name := g.table_raw.filter (fun c => c ≠ '"')
  let (schema, name) := parse_qualified_name table_name
  match db.get_table schema name with
  | some _ =>
    let ref_table := g.ref_table_raw.filter (fun c => c ≠ '"')
    let (ref_schema, ref_name) := parse_qualified_name ref_table
    let fk : ForeignKey :=
      { columns := parse_column_list g.columns_raw
      , ref_schema := if ref_schema ≠ DEFAULT_SCHEMA then some ref_schema else none
      , ref_table := ref_name
      , ref_columns := parse_column_list g.ref_columns_raw
      , constraint_name := some g.constraint_name
      , on_delete := g.on_delete
      , on_update := g.on_update }
    db.modify_table schema name (fun t => t.add_foreign_key fk)
  | none => db

/-- Application of one ALTER ... UNIQUE match. -/
def apply_alter_unique (db : Database) (g : AlterUniqueGroups) : Database :=
  let table_name := g.table_raw.filter (fun c => c ≠ '"')
  let cols := parse_column_list g.cols_raw
  let (schema, name) := parse_qualified_name table_name
  match db.get_table schema name with
  | some _ =>
    db.modify_table schema name
      (fun t => { t with unique_constraints := t.unique_constraints ++ [cols] })
  | none => db

/-- parser._parse_alter_tables: the three scans, in the source's order. -/
def parse_alter_tables (sql : List Char) (db : Database) : Database :=
  let db := (reFinditer matchAlterPkAt sql).foldl apply_alter_pk db
  let db := (reFinditer matchAlterFkAt sql).foldl apply_alter_fk db
  (reFinditer matchAlterUniqueAt sql).foldl apply_alter_unique db

/-- parser.parse_sql: build tables from every CREATE TABLE match, then apply
the ALTER TABLE pass. -/
def parse_sql (sql : List Char) : Database :=
  let db := (parse_create_tables sql).foldl
    (fun db p => db.add_table (parse_table p.1 p.2)) ⟨[]⟩
  parse_alter_tables sql db

/-! ## Reference definitions for the specification's wording

These restate what the spec asks in declarative form; the theorems compare
them with the definitions taken from the source. -/

/-- Specification wording of the definition splitter, 4.2: cut the body at
exactly the top-level commas — a comma at parenthesis depth 0 outside any
string literal, under the same literal-tracking state. Returns the raw
(untrimmed) segments; always at least one. -/
def split_top_level (st : ScanSt) : List Char → List (List Char)
  | [] => [[]]
  | c :: rest =>
    if c = ',' ∧ st.depth = 0 ∧ st.in_string = false then
      [] :: split_top_level (scanStep st c) rest
    else
      match split_top_level (scanStep st c) rest with
      | seg :: segs => (c :: seg) :: segs
      | [] => [[c]]

/-- The splitter emits every segment ended by a comma, and the trailing
segment only when it is non-empty before trimming. -/
def drop_empty_last : List (List Char) → List (List Char)
  | [] => []
  | [s] => if s = [] then [] else [s]
  | s :: rest => s :: drop_empty_last rest

/-- Specification wording of recording a referenced schema, 4.3: present
exactly when the parsed schema differs from `public`. -/
def spec_ref_schema (ref_table_raw : List Char) : Option (List Char) :=
  let (ref_schema, _) := parse_qualified_name (ref_table_raw.filter (fun c => c ≠ '"'))
  if ref_schema ≠ DEFAULT_SCHEMA then some ref_schema else none

/-- Property of one recorded ForeignKey demanded by 4.3: a stored referenced
schema is never the default schema `public`. -/
def FkOk (fk : ForeignKey) : Prop := fk.ref_schema ≠ some DEFAULT_SCHEMA

/-- All foreign keys of a table satisfy FkOk. -/
def TableFksOk (t : Table) : Prop := ∀ fk ∈ t.foreign_keys, FkOk fk

/-- All foreign keys recorded anywhere in a database satisfy FkOk. -/
def DatabaseFksOk (db : Database) : Prop :=
  ∀ p ∈ db.schemas, ∀ q ∈ (p.2 : Schema).tables, TableFksOk q.2

/-- Well-formedness of one schema entry of the schema dict: the Schema
carries its key as name, every table entry carries its key as name and the
schema's key as owning schema, and the table keys are distinct. -/
def SchemaWF (k : List Char) (s : Schema) : Prop :=
  s.name = k
  ∧ (∀ q ∈ s.tables, (q.2 : Table).name = q.1 ∧ q.2.schema = k)
  ∧ (s.tables.map Prod.fst).Nodup

/-- Well-formedness of a Database: every schema entry is well formed and the
schema keys are distinct — so at most one table per (schema, name) pair. -/
def DatabaseWF (db : Database) : Prop :=
  (∀ p ∈ db.schemas, SchemaWF p.1 p.2) ∧ (db.schemas.map Prod.fst).Nodup

/-! ## Concrete inputs used by the claim theorems -/

/-- CREATE TABLE whose first column's DEFAULT literal embeds the text `);`;
the correct parse has the two columns a and b. -/
def c1_sql : List Char := chars "CREATE TABLE t (a text DEFAULT 'x);', b int);"

/-- CREATE TABLE with an inline REFERENCES clause on the column user_id. -/
def c2_sql : List Char :=
  chars "CREATE TABLE posts (id serial PRIMARY KEY, user_id integer REFERENCES users(id));"

/-- The body with a nested-parenthesis CHECK clause, from the spec's 8. -/
def c3_body_check : List Char :=
  chars "id serial PRIMARY KEY, age integer, CHECK (age >= 0 AND age <= 150)"

/-- The body with a doubled-quote-escaped string literal, from the spec's 8. -/
def c3_body_quote : List Char :=
  chars "id serial PRIMARY KEY, name text DEFAULT 'it''s a test'"

/-- Table-level PRIMARY KEY example of the spec's 8. -/
def c4_sql_table_level : List Char :=
  chars "CREATE TABLE t (post_id integer NOT NULL, tag_id integer NOT NULL, PRIMARY KEY (post_id, tag_id));"

/-- ALTER TABLE ONLY primary-key example of the spec's 8. -/
def c4_sql_alter : List Char :=
  chars "CREATE TABLE t (id serial, name text); ALTER TABLE ONLY t ADD CONSTRAINT t_pkey PRIMARY KEY (id);"

/-- Foreign-key example with both ON DELETE and ON UPDATE actions, from the
spec's 8. -/
def c5_sql : List Char :=
  chars "CREATE TABLE posts (id serial PRIMARY KEY, user_id integer NOT NULL, FOREIGN KEY (user_id) REFERENCES users(id) ON DELETE CASCADE ON UPDATE SET NULL);"

/-- One created table plus an ALTER TABLE clause naming a table that no
CREATE TABLE introduced. -/
def c6_sql : List Char :=
  chars "CREATE TABLE a (x int); ALTER TABLE missing ADD CONSTRAINT c PRIMARY KEY (x);"

/-- The same input with the dangling ALTER TABLE clause absent. -/
def c6_sql_without : List Char := chars "CREATE TABLE a (x int); "

/-- Foreign key referencing a schema-qualified, non-public table. -/
def c7_sql_qualified : List Char :=
  chars "CREATE TABLE billing.invoices (id serial PRIMARY KEY, user_id integer NOT NULL, FOREIGN KEY (user_id) REFERENCES auth.users(id));"

/-- Foreign key referencing an explicitly public-qualified table. -/
def c7_sql_public : List Char :=
  chars "CREATE TABLE posts (id int, user_id integer, FOREIGN KEY (user_id) REFERENCES public.users(id));"

/-- Two CREATE TABLE statements with the same qualified name. -/
def c10_sql_dup : List Char :=
  chars "CREATE TABLE t (a int); CREATE TABLE t (a int, b int);"

/-- Helper for relating the splitter's accumulator to the reference split:
prepend pending text to the first raw segment. -/
def cons_head (pre : List Char) : List (List Char) → List (List Char)
  | s :: ss => (pre ++ s) :: ss
  | [] => [pre]

/-! ## Theorems -/

/-- C1: the claim asks that a `)`/`;` embedded in a string literal never
terminates the statement body, so that `c1_sql` parses table t with its two
columns a and b. The extractor's lazy scan is blind to string literals: it
cuts the body at the `);` inside the DEFAULT literal, and the parsed table
keeps a single truncated column a. -/
theorem c1_literal_paren_semicolon_truncates :
    parse_create_tables c1_sql = [(chars "t", chars "a text DEFAULT 'x")]
    ∧ ((parse_sql c1_sql).get_table (chars "public") (chars "t")).map
        (fun t => t.columns.map (fun c => c.name)) = some [chars "a"] := by
  exact ⟨by decide, by decide⟩

/-- C2: the claim asks that an inline `REFERENCES users(id)` on column
user_id yield one ForeignKey and set the column's foreign-key flag. No code
path extracts inline references — `_parse_column` always returns the column
with `is_foreign_key := false` and only table-level and ALTER constraints
ever call add_foreign_key — so the parsed table has no foreign keys and the
flag stays false. -/
theorem c2_inline_references_ignored :
    ((parse_sql c2_sql).get_table (chars "public") (chars "posts")).map
      (fun t => (t.foreign_keys,
                 (t.get_column (chars "user_id")).map (fun c => c.is_foreign_key))) =
    some ([], some false) := by
  decide

/-- C5: the claim asks for on_delete = CASCADE and an on_update containing
NULL for `ON DELETE CASCADE ON UPDATE SET NULL`. The greedy two-word action
capture swallows the `ON` of the following ON UPDATE clause, so the code
records on_delete = "CASCADE ON" and no on_update at all. -/
theorem c5_on_delete_action_overcaptured :
    ((parse_sql c5_sql).get_table (chars "public") (chars "posts")).map
        (fun t => t.foreign_keys.map (fun fk => fk.columns)) = some [[chars "user_id"]]
    ∧ ((parse_sql c5_sql).get_table (chars "public") (chars "posts")).map
        (fun t => t.foreign_keys.map (fun fk => fk.ref_table)) = some [chars "users"]
    ∧ ((parse_sql c5_sql).get_table (chars "public") (chars "posts")).map
        (fun t => t.foreign_keys.map (fun fk => fk.on_delete)) =
      some [some (chars "CASCADE ON")]
    ∧ ((parse_sql c5_sql).get_table (chars "public") (chars "posts")).map
        (fun t => t.foreign_keys.map (fun fk => fk.on_update)) = some [none] := by
  exact ⟨by decide, by decide, by decide, by decide⟩

/-! ### Splitter equivalence (C3) -/

/-- A comma is not a quote character, so the quote-toggle step leaves the
string state unchanged. -/
lemma scanQuote_comma (st : ScanSt) : scanQuote st ',' = (st.in_string, st.string_char) := by
  have h : ¬ ((',' = '\'' ∨ ',' = '"') ∧ st.prev ≠ some '\\') := by
    rintro ⟨h1, -⟩
    rcases h1 with h1 | h1 <;> exact absurd h1 (by decide)
  simp [scanQuote, h]

/-- The reference split always returns at least one segment. -/
lemma split_top_level_ne_nil (body : List Char) : ∀ st, split_top_level st body ≠ [] := by
  induction body with
  | nil => intro st; simp [split_top_level]
  | cons c rest ih =>
    intro st
    simp only [split_top_level]
    split
    · simp
    · cases h : split_top_level (scanStep st c) rest <;> simp

/-- drop_empty_last walks past every segment that a later segment follows. -/
lemma drop_empty_last_cons (x : List Char) (S : List (List Char)) (h : S ≠ []) :
    drop_empty_last (x :: S) = x :: drop_empty_last S := by
  cases S with
  | nil => exact absurd rfl h
  | cons y ys => rfl

/-- Loop invariant tying the source splitter to the reference split: pending
text prepends to the first remaining raw segment, and the final segment is
kept only when raw-non-empty, everything trimmed. -/
lemma split_defs_go_spec (body : List Char) :
    ∀ (st : ScanSt) (current : List Char),
      split_defs_go current st body =
        (drop_empty_last (cons_head current.reverse (split_top_level st body))).map stripL := by
  induction body with
  | nil =>
    intro st current
    cases current with
    | nil => rfl
    | cons a as =>
      simp [split_defs_go, split_top_level, cons_head, drop_empty_last]
  | cons c rest ih =>
    intro st current
    obtain ⟨seg, segs, hS⟩ : ∃ seg segs,
        split_top_level (scanStep st c) rest = seg :: segs := by
      cases h : split_top_level (scanStep st c) rest with
      | nil => exact absurd h (split_top_level_ne_nil rest (scanStep st c))
      | cons seg segs => exact ⟨seg, segs, rfl⟩
    by_cases hcond : c = ',' ∧ st.depth = 0 ∧ st.in_string = false
    · obtain ⟨hc, hd, hs⟩ := hcond
      subst hc
      have hq := scanQuote_comma st
      have hlhs : split_defs_go current st (',' :: rest) =
          stripL current.reverse :: split_defs_go [] (scanStep st ',') rest := by
        simp only [split_defs_go, hq]
        rw [if_pos]
        exact ⟨by simp [hs], trivial, hd⟩
      have hrhs : split_top_level st (',' :: rest) =
          [] :: split_top_level (scanStep st ',') rest := by
        simp only [split_top_level]
        rw [if_pos]
        exact ⟨trivial, hd, hs⟩
      rw [hlhs, hrhs, ih, hS]
      simp [cons_head, drop_empty_last_cons]
    · have hq' : ((scanQuote st c).1 = false ∧ c = ',' ∧ st.depth = 0) → False := by
        rintro ⟨h1, h2, h3⟩
        subst h2
        rw [scanQuote_comma st] at h1
        exact hcond ⟨rfl, h3, h1⟩
      have hlhs : split_defs_go current st (c :: rest) =
          split_defs_go (c :: current) (scanStep st c) rest := by
        simp only [split_defs_go]
        cases hsc : scanQuote st c with
        | mk ins sc =>
          rw [if_neg]
          rintro ⟨h1, h2, h3⟩
          exact hq' ⟨by rw [hsc]; simpa using h1, h2, h3⟩
      have hrhs : split_top_level st (c :: rest) = (c :: seg) :: segs := by
        simp only [split_top_level]
        rw [if_neg hcond, hS]
      rw [hlhs, hrhs, ih, hS]
      simp [cons_head, List.append_assoc]

/-- C3: the definition splitter returns exactly the body's segments cut at
top-level commas — depth 0, outside string literals under the scanner's
state — each trimmed, with the trailing segment kept whenever it is
non-empty; in particular the spec's nested-parenthesis CHECK body stays one
definition and the doubled-quote literal does not split early. -/
theorem c3_split_definitions_top_level_commas :
    (∀ body : List Char,
      split_definitions body =
        (drop_empty_last (split_top_level scanInit body)).map stripL)
    ∧ split_definitions c3_body_check =
        [chars "id serial PRIMARY KEY", chars "age integer",
         chars "CHECK (age >= 0 AND age <= 150)"]
    ∧ split_definitions c3_body_quote =
        [chars "id serial PRIMARY KEY", chars "name text DEFAULT 'it''s a test'"] := by
  refine ⟨fun body => ?_, by decide, by decide⟩
  have h := split_defs_go_spec body scanInit []
  rw [split_definitions, h]
  obtain ⟨seg, segs, hS⟩ : ∃ seg segs, split_top_level scanInit body = seg :: segs := by
    cases hx : split_top_level scanInit body with
    | nil => exact absurd hx (split_top_level_ne_nil body scanInit)
    | cons seg segs => exact ⟨seg, segs, rfl⟩
  rw [hS]
  simp [cons_head]

/-! ### Primary-key application (C4) -/

/-- Marking a different name leaves lookups for `nm` unchanged. -/
lemma find_markPrimaryGo_ne (m nm : List Char) (h : m ≠ nm) (l : List Column) :
    (markPrimaryGo m l).find? (fun c => c.name = nm) = l.find? (fun c => c.name = nm) := by
  induction l with
  | nil => rfl
  | cons c cs ih =>
    by_cases hc : c.name = m
    · rw [markPrimaryGo, if_pos hc]
      have h1 : ¬ ({ c with is_primary_key := true } : Column).name = nm := by
        simpa [hc] using h
      have h2 : ¬ c.name = nm := by simpa [hc] using h
      simp [List.find?, h1, h2]
    · rw [markPrimaryGo, if_neg hc]
      by_cases hnm : c.name = nm
      · simp [List.find?, hnm]
      · simp [List.find?, hnm, ih]

/-- Marking `nm` turns the first `nm`-column's flag on, as seen by find?. -/
lemma find_markPrimaryGo_eq (nm : List Char) (l : List Column) :
    (markPrimaryGo nm l).find? (fun c => c.name = nm) =
      (l.find? (fun c => c.name = nm)).map (fun c => { c with is_primary_key := true }) := by
  induction l with
  | nil => rfl
  | cons c cs ih =>
    by_cases hc : c.name = nm
    · rw [markPrimaryGo, if_pos hc]
      have h1 : ({ c with is_primary_key := true } : Column).name = nm := by simpa using hc
      simp [List.find?, h1, hc]
    · rw [markPrimaryGo, if_neg hc]
      simp [List.find?, hc, ih]

/-- Folding marks for names other than `nm` leaves lookups for `nm`
unchanged. -/
lemma find_foldl_mark_notmem (cols : List (List Char)) (nm : List Char) (h : nm ∉ cols) :
    ∀ l : List Column,
      (cols.foldl (fun cs n => markPrimaryGo n cs) l).find? (fun c => c.name = nm) =
        l.find? (fun c => c.name = nm) := by
  induction cols with
  | nil => intro l; rfl
  | cons m ms ih =>
    intro l
    have hm : m ≠ nm := fun hmn => h (hmn ▸ List.mem_cons_self m ms)
    have hms : nm ∉ ms := fun hx => h (List.mem_cons_of_mem m hx)
    rw [List.foldl_cons, ih hms, find_markPrimaryGo_ne m nm hm]

/-- Folding the marks over a name list containing `nm` flags the first
`nm`-column. -/
lemma find_foldl_mark_mem (cols : List (List Char)) (nm : List Char) (h : nm ∈ cols) :
    ∀ l : List Column,
      (cols.foldl (fun cs n => markPrimaryGo n cs) l).find? (fun c => c.name = nm) =
        (l.find? (fun c => c.name = nm)).map (fun c => { c with is_primary_key := true }) := by
  induction cols with
  | nil => exact absurd h (List.not_mem_nil nm)
  | cons m ms ih =>
    intro l
    rw [List.foldl_cons]
    by_cases hms : nm ∈ ms
    · rw [ih hms]
      by_cases hmn : m = nm
      · subst hmn
        rw [find_markPrimaryGo_eq]
        cases l.find? (fun c => c.name = m) with
        | none => rfl
        | some c => rfl
      · rw [find_markPrimaryGo_ne m nm hmn]
    · have hmn : m = nm := by
        rcases List.mem_cons.mp h with h1 | h1
        · exact h1.symm
        · exact absurd h1 hms
      subst hmn
      rw [find_foldl_mark_notmem ms m hms, find_markPrimaryGo_eq]

/-- C4: applying a PRIMARY KEY (cols) constraint sets the table's
primary_key list to exactly the listed names, overwriting any prior list,
and turns is_primary_key on for each listed column that is present; the
spec's table-level example ends with both columns flagged and
primary_key = [post_id, tag_id], and the ALTER TABLE ONLY example sets
primary_key = [id] and flags the column id. -/
theorem c4_primary_key_constraint_application :
    (∀ (t : Table) (cols : List (List Char)), (t.set_primary_key cols).primary_key = cols)
    ∧ (∀ (t : Table) (cols : List (List Char)) (nm : List Char) (c : Column),
        nm ∈ cols → t.get_column nm = some c →
        (t.set_primary_key cols).get_column nm =
          some { c with is_primary_key := true })
    ∧ ((parse_sql c4_sql_table_level).get_table (chars "public") (chars "t")).map
        (fun t => t.primary_key) = some [chars "post_id", chars "tag_id"]
    ∧ ((parse_sql c4_sql_table_level).get_table (chars "public") (chars "t")).map
        (fun t => t.columns.map (fun c => c.is_primary_key)) = some [true, true]
    ∧ ((parse_sql c4_sql_alter).get_table (chars "public") (chars "t")).map
        (fun t => t.primary_key) = some [chars "id"]
    ∧ ((parse_sql c4_sql_alter).get_table (chars "public") (chars "t")).map
        (fun t => (t.get_column (chars "id")).map (fun c => c.is_primary_key)) =
      some (some true) := by
  refine ⟨fun t cols => rfl, ?_, by decide, by decide, by decide, by decide⟩
  intro t cols nm c hmem hfind
  simp only [Table.get_column, Table.set_primary_key] at hfind ⊢
  rw [find_foldl_mark_mem cols nm hmem, hfind]
  rfl

/-- C4 witness: the marking clause applied to a concrete one-column table. -/
theorem c4_primary_key_constraint_application_witness :
    (({ name := chars "t", schema := chars "public",
        columns := [{ name := chars "id", data_type := chars "int" }] } : Table).set_primary_key
          [chars "id"]).get_column (chars "id") =
      some { name := chars "id", data_type := chars "int", is_primary_key := true } := by
  exact c4_primary_key_constraint_application.2.1
    { name := chars "t", schema := chars "public",
      columns := [{ name := chars "id", data_type := chars "int" }] }
    [chars "id"] (chars "id") { name := chars "id", data_type := chars "int" }
    (by decide) (by decide)

/-- C6: an ALTER TABLE ... ADD CONSTRAINT clause naming a table that no
CREATE TABLE introduced is silently dropped — each of the three clause
applications returns the database unchanged when the qualified-name lookup
misses, and on a whole input the result equals the parse of the same input
with the dangling clause absent. -/
theorem c6_alter_missing_table_noop :
    (∀ (db : Database) (g : AlterPkGroups) (schema name : List Char),
        parse_qualified_name (g.table_raw.filter (fun c => c ≠ '"')) = (schema, name) →
        db.get_table schema name = none → apply_alter_pk db g = db)
    ∧ (∀ (db : Database) (g : AlterFkGroups) (schema name : List Char),
        parse_qualified_name (g.table_raw.filter (fun c => c ≠ '"')) = (schema, name) →
        db.get_table schema name = none → apply_alter_fk db g = db)
    ∧ (∀ (db : Database) (g : AlterUniqueGroups) (schema name : List Char),
        parse_qualified_name (g.table_raw.filter (fun c => c ≠ '"')) = (schema, name) →
        db.get_table schema name = none → apply_alter_unique db g = db)
    ∧ parse_sql c6_sql = parse_sql c6_sql_without := by
  refine ⟨?_, ?_, ?_, by decide⟩
  · intro db g schema name hpq hget
    simp only [apply_alter_pk, hpq, hget]
  · intro db g schema name hpq hget
    simp only [apply_alter_fk, hpq, hget]
  · intro db g schema name hpq hget
    simp only [apply_alter_unique, hpq, hget]

/-- C6 witness: the PRIMARY KEY clause application on the empty database. -/
theorem c6_alter_missing_table_noop_witness :
    apply_alter_pk ⟨[]⟩ ⟨chars "missing", chars "x"⟩ = ⟨[]⟩ := by
  exact c6_alter_missing_table_noop.1 ⟨[]⟩ ⟨chars "missing", chars "x"⟩
    (chars "public") (chars "missing") (by decide) (by decide)

/-! ### Type normalization (C8, C9) -/

/-- With no long form matching, the normalization table falls through to
lower-casing. -/
lemma normalize_go_no_match (d : List Char) (l : List (List Char × List Char))
    (h : ∀ p ∈ l, p.1.isPrefixOf (upperL d) = false) :
    normalize_go d l = lowerL d := by
  induction l with
  | nil => rfl
  | cons p ps ih =>
    cases p with
    | mk long short =>
      rw [normalize_go, if_neg]
      · exact ih fun q hq => h q (List.mem_cons_of_mem _ hq)
      · have hp := h (long, short) (List.mem_cons_self _ _)
        simp at hp
        simp [hp]

/-- C8: the three normalizations of the spec hold — CHARACTER VARYING is
matched before CHARACTER, the parameter suffix survives — and in general an
input matching no long form passes through lower-cased, while an input whose
whitespace-normal form starts (case-insensitively) with CHARACTER VARYING
maps to varchar with the original suffix appended. -/
theorem c8_normalize_type_mappings :
    normalize_type (chars "CHARACTER VARYING(100)") = chars "varchar(100)"
    ∧ normalize_type (chars "DOUBLE PRECISION") = chars "float8"
    ∧ normalize_type (chars "TIMESTAMP WITH TIME ZONE") = chars "timestamptz"
    ∧ (∀ d : List Char,
        (∀ p ∈ type_map, p.1.isPrefixOf (upperL (joinWords d)) = false) →
        normalize_type d = lowerL (joinWords d))
    ∧ (∀ d : List Char,
        (chars "CHARACTER VARYING").isPrefixOf (upperL (joinWords d)) = true →
        normalize_type d =
          chars "varchar" ++ (joinWords d).drop (chars "CHARACTER VARYING").length) := by
  refine ⟨by decide, by decide, by decide, ?_, ?_⟩
  · intro d h
    exact normalize_go_no_match (joinWords d) type_map h
  · intro d h
    show normalize_go (joinWords d) type_map =
      chars "varchar" ++ (joinWords d).drop (chars "CHARACTER VARYING").length
    rw [type_map, normalize_go, if_pos h]

/-- C8 witness: the two conditional clauses at concrete types. -/
theorem c8_normalize_type_mappings_witness :
    normalize_type (chars "text") = lowerL (joinWords (chars "text"))
    ∧ normalize_type (chars "character varying(255)") =
        chars "varchar" ++
          (joinWords (chars "character varying(255)")).drop (chars "CHARACTER VARYING").length := by
  exact ⟨c8_normalize_type_mappings.2.2.2.1 (chars "text") (by decide),
         c8_normalize_type_mappings.2.2.2.2 (chars "character varying(255)") (by decide)⟩

/-- C9 counterexample: normalization is not idempotent as claimed. The type
string BOOLEANX matches the BOOLEAN long form, so its upper-case suffix X is
kept; the second pass matches nothing and lower-cases it. -/
theorem c9_normalize_not_idempotent :
    normalize_type (chars "BOOLEANX") = chars "boolX"
    ∧ normalize_type (chars "boolX") = chars "boolx"
    ∧ normalize_type (normalize_type (chars "BOOLEANX")) ≠ normalize_type (chars "BOOLEANX") := by
  exact ⟨by decide, by decide, by decide⟩

/-- C9 amended: normalization is idempotent on every type string whose
normalized form is already whitespace-normal, contains no upper-case ASCII
letter, and does not case-insensitively start with any long form of the
table — which covers every canonical output such as varchar(100), float8 or
an unmatched lower-case type, but not outputs whose preserved suffix keeps
upper-case letters (the counterexample BOOLEANX). -/
theorem c9_normalize_idempotent_conditional (t : List Char)
    (h1 : joinWords (normalize_type t) = normalize_type t)
    (h2 : ∀ c ∈ normalize_type t, pyToLower c = c)
    (h3 : ∀ p ∈ type_map, p.1.isPrefixOf (upperL (normalize_type t)) = false) :
    normalize_type (normalize_type t) = normalize_type t := by
  show normalize_go (joinWords (normalize_type t)) type_map = normalize_type t
  rw [h1, normalize_go_no_match (normalize_type t) type_map h3]
  show (normalize_type t).map pyToLower = normalize_type t
  calc (normalize_type t).map pyToLower
      = (normalize_type t).map (fun c => c) := List.map_congr_left h2
    _ = normalize_type t := List.map_id' (normalize_type t)

/-- C9 witness: the amended idempotence at the concrete type text. -/
theorem c9_normalize_idempotent_conditional_witness :
    normalize_type (normalize_type (chars "text")) = normalize_type (chars "text") := by
  exact c9_normalize_idempotent_conditional (chars "text") (by decide) (by decide) (by decide)

/-! ### Pipeline invariants (C7, C10) -/

/-- Fold preservation of a predicate. -/
lemma foldl_preserve {α β : Type} (P : α → Prop) (f : α → β → α)
    (h : ∀ a b, P a → P (f a b)) : ∀ (l : List β) (a : α), P a → P (l.foldl f a) := by
  intro l
  induction l with
  | nil => exact fun a ha => ha
  | cons b bs ih => exact fun a ha => ih (f a b) (h a b ha)

/-- Entries after a dict insert: an old entry or the inserted pair. -/
lemma mem_dictInsert {α : Type} (k : List Char) (v : α) (l : List (List Char × α))
    (p : List Char × α) (hp : p ∈ dictInsert k v l) : p ∈ l ∨ p = (k, v) := by
  induction l with
  | nil => simpa [dictInsert] using hp
  | cons q qs ih =>
    rw [dictInsert] at hp
    by_cases hk : q.1 = k
    · rw [if_pos hk] at hp
      rcases List.mem_cons.mp hp with h | h
      · right; rw [h, hk]
      · left; exact List.mem_cons_of_mem _ h
    · rw [if_neg hk] at hp
      rcases List.mem_cons.mp hp with h | h
      · left; exact h ▸ List.mem_cons_self _ _
      · rcases ih h with h2 | h2
        · left; exact List.mem_cons_of_mem _ h2
        · right; exact h2

/-- A successful dict lookup names an entry of the list. -/
lemma dictGet_some_mem {α : Type} (k : List Char) (v : α) :
    ∀ l : List (List Char × α), dictGet k l = some v → (k, v) ∈ l := by
  intro l
  induction l with
  | nil => intro h; exact absurd h (by simp [dictGet])
  | cons q qs ih =>
    intro h
    cases q with
    | mk a b =>
      rw [dictGet] at h
      by_cases hk : a = k
      · rw [if_pos hk] at h
        subst hk
        rw [← Option.some.inj h]
        exact List.mem_cons_self _ _
      · rw [if_neg hk] at h
        exact List.mem_cons_of_mem _ (ih h)

/-- A failed dict lookup means the key is absent. -/
lemma dictGet_none_not_mem {α : Type} (k : List Char) :
    ∀ l : List (List Char × α), dictGet k l = none → k ∉ l.map Prod.fst := by
  intro l
  induction l with
  | nil => intro _; simp
  | cons q qs ih =>
    intro h
    rw [dictGet] at h
    by_cases hk : q.1 = k
    · rw [if_pos hk] at h
      exact absurd h (Option.noConfusion)
    · rw [if_neg hk] at h
      rw [List.map_cons]
      intro hmem
      rcases List.mem_cons.mp hmem with h1 | h1
      · exact hk h1.symm
      · exact ih h h1

/-- Inserting an already-present key keeps the key sequence. -/
lemma dictInsert_keys_mem {α : Type} (k : List Char) (v : α) :
    ∀ l : List (List Char × α), k ∈ l.map Prod.fst →
      (dictInsert k v l).map Prod.fst = l.map Prod.fst := by
  intro l
  induction l with
  | nil => intro h; exact absurd h (by simp)
  | cons q qs ih =>
    intro h
    rw [dictInsert]
    by_cases hk : q.1 = k
    · rw [if_pos hk]; simp [hk]
    · rw [if_neg hk]
      rw [List.map_cons, List.map_cons]
      have hqs : k ∈ qs.map Prod.fst := by
        rw [List.map_cons] at h
        rcases List.mem_cons.mp h with h1 | h1
        · exact absurd h1.symm hk
        · exact h1
      rw [ih hqs]

/-- Inserting a fresh key appends it to the key sequence. -/
lemma dictInsert_keys_not_mem {α : Type} (k : List Char) (v : α) :
    ∀ l : List (List Char × α), k ∉ l.map Prod.fst →
      (dictInsert k v l).map Prod.fst = l.map Prod.fst ++ [k] := by
  intro l
  induction l with
  | nil => intro _; simp [dictInsert]
  | cons q qs ih =>
    intro h
    rw [List.map_cons] at h
    have hk : q.1 ≠ k := fun hq => h (hq ▸ List.mem_cons_self _ _)
    have hqs : k ∉ qs.map Prod.fst := fun hx => h (List.mem_cons_of_mem _ hx)
    rw [dictInsert, if_neg hk, List.map_cons, ih hqs, List.map_cons, List.cons_append]

/-- Dict inserts keep the keys distinct. -/
lemma dictInsert_nodup {α : Type} (k : List Char) (v : α) (l : List (List Char × α))
    (h : (l.map Prod.fst).Nodup) : ((dictInsert k v l).map Prod.fst).Nodup := by
  by_cases hk : k ∈ l.map Prod.fst
  · rw [dictInsert_keys_mem k v l hk]; exact h
  · rw [dictInsert_keys_not_mem k v l hk]
    rw [List.nodup_append]
    refine ⟨h, List.nodup_singleton k, ?_⟩
    intro a ha hb
    rw [List.mem_singleton] at hb
    exact hk (hb ▸ ha)

/-- The stored referenced schema is never the default schema, whatever the
parsed schema was. -/
lemma if_ref_schema_ok (rs : List Char) :
    (if rs ≠ DEFAULT_SCHEMA then some rs else none) ≠ some DEFAULT_SCHEMA := by
  by_cases h : rs ≠ DEFAULT_SCHEMA
  · rw [if_pos h]
    intro hc
    exact h (Option.some.inj hc)
  · rw [if_neg h]
    exact Option.noConfusion

/-- Adding a column does not touch the foreign keys. -/
lemma tableFksOk_add_column (t : Table) (c : Column) (h : TableFksOk t) :
    TableFksOk (t.add_column c) := h

/-- Setting the primary key does not touch the foreign keys. -/
lemma tableFksOk_set_primary_key (t : Table) (cols : List (List Char)) (h : TableFksOk t) :
    TableFksOk (t.set_primary_key cols) := h

/-- Appending a unique-constraint group does not touch the foreign keys. -/
lemma tableFksOk_push_unique (t : Table) (cols : List (List Char)) (h : TableFksOk t) :
    TableFksOk { t with unique_constraints := t.unique_constraints ++ [cols] } := h

/-- Adding a good foreign key preserves the invariant. -/
lemma tableFksOk_add_foreign_key (t : Table) (fk : ForeignKey) (hfk : FkOk fk)
    (h : TableFksOk t) : TableFksOk (t.add_foreign_key fk) := by
  intro fk' hfk'
  rcases List.mem_append.mp hfk' with h1 | h1
  · exact h fk' h1
  · rw [List.mem_singleton.mp h1]
    exact hfk

/-- apply_primary_key_constraint never touches the foreign keys. -/
lemma tableFksOk_apply_primary_key_constraint (t : Table) (c : List Char)
    (h : TableFksOk t) : TableFksOk (apply_primary_key_constraint t c) := by
  rw [apply_primary_key_constraint]
  cases reSearchGo matchPrimaryKeyAt c with
  | none => exact h
  | some r => exact tableFksOk_set_primary_key t _ h

/-- apply_unique_constraint never touches the foreign keys. -/
lemma tableFksOk_apply_unique_constraint (t : Table) (c : List Char)
    (h : TableFksOk t) : TableFksOk (apply_unique_constraint t c) := by
  rw [apply_unique_constraint]
  cases reSearchGo matchUniqueAt c with
  | none => exact h
  | some r => exact tableFksOk_push_unique t _ h

/-- apply_foreign_key_constraint records a foreign key whose stored schema
obeys the difference-from-public rule. -/
lemma tableFksOk_apply_foreign_key_constraint (t : Table) (c : List Char)
    (h : TableFksOk t) : TableFksOk (apply_foreign_key_constraint t c) := by
  rw [apply_foreign_key_constraint]
  cases reSearchGo matchForeignKeyAt c with
  | none => exact h
  | some r =>
    exact tableFksOk_add_foreign_key t _ (if_ref_schema_ok _) h

/-- apply_table_constraint preserves the invariant. -/
lemma tableFksOk_apply_table_constraint (t : Table) (c : List Char)
    (h : TableFksOk t) : TableFksOk (apply_table_constraint t c) := by
  rw [apply_table_constraint]
  by_cases h1 : ciContains (chars "PRIMARY KEY") c = true
  · rw [if_pos h1]; exact tableFksOk_apply_primary_key_constraint t c h
  · rw [if_neg h1]
    by_cases h2 : ciContains (chars "FOREIGN KEY") c = true
    · rw [if_pos h2]; exact tableFksOk_apply_foreign_key_constraint t c h
    · rw [if_neg h2]
      by_cases h3 : ciContains (chars "UNIQUE") c = true
      · rw [if_pos h3]; exact tableFksOk_apply_unique_constraint t c h
      · rw [if_neg h3]; exact h

/-- The table-building loop body keeps the foreign-key invariant. -/
lemma tableFksOk_parse_table_step (acc : Table × List (List Char)) (d : List Char)
    (h : TableFksOk acc.1) : TableFksOk (parse_table_step acc d).1 := by
  rw [parse_table_step]
  by_cases h1 : (stripL d).isEmpty = true
  · rw [if_pos h1]; exact h
  · rw [if_neg h1]
    by_cases h2 : is_table_constraint (stripL d) = true
    · rw [if_pos h2]; exact h
    · rw [if_neg h2]
      cases parse_column (stripL d) with
      | none => exact h
      | some col => exact tableFksOk_add_column acc.1 col h

/-- Every table built by parse_table satisfies the invariant. -/
lemma tableFksOk_parse_table (qn body : List Char) : TableFksOk (parse_table qn body) := by
  rw [parse_table]
  obtain ⟨schema, name⟩ := parse_qualified_name qn
  have h0 : TableFksOk (⟨name, schema, [], [], [], []⟩ : Table) :=
    fun fk hfk => absurd hfk (List.not_mem_nil fk)
  have h1 := foldl_preserve (fun acc : Table × List (List Char) => TableFksOk acc.1)
    parse_table_step (fun a b ha => tableFksOk_parse_table_step a b ha)
    (split_definitions body) (⟨name, schema, [], [], [], []⟩, []) h0
  exact foldl_preserve TableFksOk apply_table_constraint
    (fun a b ha => tableFksOk_apply_table_constraint a b ha) _ _ h1

/-- The empty database satisfies the invariant. -/
lemma databaseFksOk_empty : DatabaseFksOk ⟨[]⟩ :=
  fun p hp => absurd hp (List.not_mem_nil p)

/-- Adding a good table keeps the invariant. -/
lemma databaseFksOk_add_table (db : Database) (t : Table) (hdb : DatabaseFksOk db)
    (ht : TableFksOk t) : DatabaseFksOk (db.add_table t) := by
  cases hg : dictGet t.schema db.schemas with
  | some s =>
    intro p hp q hq
    simp only [Database.add_table, Database.get_schema, hg] at hp
    rcases mem_dictInsert _ _ _ _ hp with h1 | h1
    · exact hdb p h1 q hq
    · subst h1
      change q ∈ dictInsert t.name t s.tables at hq
      rcases mem_dictInsert _ _ _ _ hq with h2 | h2
      · exact hdb (t.schema, s) (dictGet_some_mem _ _ _ hg) q h2
      · rw [h2]; exact ht
  | none =>
    intro p hp q hq
    simp only [Database.add_table, Database.get_schema, hg] at hp
    rcases mem_dictInsert _ _ _ _ hp with h1 | h1
    · rcases List.mem_append.mp h1 with h2 | h2
      · exact hdb p h2 q hq
      · rw [List.mem_singleton.mp h2] at hq
        exact absurd hq (List.not_mem_nil q)
    · subst h1
      change q ∈ dictInsert t.name t [] at hq
      rcases mem_dictInsert _ _ _ _ hq with h2 | h2
      · exact absurd h2 (List.not_mem_nil q)
      · rw [h2]; exact ht

/-- Rewriting one table through an invariant-preserving function keeps the
invariant. -/
lemma databaseFksOk_modify_table (db : Database) (sch nm : List Char) (f : Table → Table)
    (hdb : DatabaseFksOk db) (hf : ∀ t, TableFksOk t → TableFksOk (f t)) :
    DatabaseFksOk (db.modify_table sch nm f) := by
  intro p hp q hq
  simp only [Database.modify_table] at hp
  rcases List.mem_map.mp hp with ⟨p0, hp0, hgp⟩
  by_cases hps : p0.1 = sch
  · rw [if_pos hps] at hgp
    subst hgp
    change q ∈ p0.2.tables.map _ at hq
    rcases List.mem_map.mp hq with ⟨q0, hq0, hgq⟩
    by_cases hqn : q0.1 = nm
    · rw [if_pos hqn] at hgq
      rw [← hgq]
      exact hf q0.2 (hdb p0 hp0 q0 hq0)
    · rw [if_neg hqn] at hgq
      rw [← hgq]
      exact hdb p0 hp0 q0 hq0
  · rw [if_neg hps] at hgp
    subst hgp
    exact hdb p0 hp0 q hq

/-- apply_alter_pk keeps the invariant. -/
lemma databaseFksOk_apply_alter_pk (db : Database) (g : AlterPkGroups)
    (h : DatabaseFksOk db) : DatabaseFksOk (apply_alter_pk db g) := by
  simp only [apply_alter_pk]
  set pq := parse_qualified_name (g.table_raw.filter (fun c => c ≠ '"')) with hpq
  cases hget : db.get_table pq.1 pq.2 with
  | none => simp only [hget]; exact h
  | some t0 =>
    simp only [hget]
    exact databaseFksOk_modify_table db pq.1 pq.2 _ h
      (fun t ht => tableFksOk_set_primary_key t _ ht)

/-- apply_alter_fk keeps the invariant: its ForeignKey obeys the
difference-from-public rule. -/
lemma databaseFksOk_apply_alter_fk (db : Database) (g : AlterFkGroups)
    (h : DatabaseFksOk db) : DatabaseFksOk (apply_alter_fk db g) := by
  simp only [apply_alter_fk]
  set pq := parse_qualified_name (g.table_raw.filter (fun c => c ≠ '"')) with hpq
  cases hget : db.get_table pq.1 pq.2 with
  | none => simp only [hget]; exact h
  | some t0 =>
    simp only [hget]
    exact databaseFksOk_modify_table db pq.1 pq.2 _ h
      (fun t ht => tableFksOk_add_foreign_key t _ (if_ref_schema_ok _) ht)

/-- apply_alter_unique keeps the invariant. -/
lemma databaseFksOk_apply_alter_unique (db : Database) (g : AlterUniqueGroups)
    (h : DatabaseFksOk db) : DatabaseFksOk (apply_alter_unique db g) := by
  simp only [apply_alter_unique]
  set pq := parse_qualified_name (g.table_raw.filter (fun c => c ≠ '"')) with hpq
  cases hget : db.get_table pq.1 pq.2 with
  | none => simp only [hget]; exact h
  | some t0 =>
    simp only [hget]
    exact databaseFksOk_modify_table db pq.1 pq.2 _ h
      (fun t ht => tableFksOk_push_unique t _ ht)

/-- The whole ALTER pass keeps the invariant. -/
lemma databaseFksOk_parse_alter_tables (sql : List Char) (db : Database)
    (h : DatabaseFksOk db) : DatabaseFksOk (parse_alter_tables sql db) := by
  simp only [parse_alter_tables]
  exact foldl_preserve DatabaseFksOk apply_alter_unique
    (fun a b ha => databaseFksOk_apply_alter_unique a b ha) _ _
    (foldl_preserve DatabaseFksOk apply_alter_fk
      (fun a b ha => databaseFksOk_apply_alter_fk a b ha) _ _
      (foldl_preserve DatabaseFksOk apply_alter_pk
        (fun a b ha => databaseFksOk_apply_alter_pk a b ha) _ _ h))

/-- takeWhile/dropWhile at the first failing element. -/
lemma takeWhile_append_stop {α : Type} (p : α → Bool) (pre post : List α) (a : α)
    (hpre : ∀ x ∈ pre, p x = true) (ha : p a = false) :
    (pre ++ a :: post).takeWhile p = pre ∧ (pre ++ a :: post).dropWhile p = a :: post := by
  induction pre with
  | nil =>
    constructor
    · rw [List.nil_append, List.takeWhile_cons, ha]
      simp
    · rw [List.nil_append, List.dropWhile_cons, ha]
      simp
  | cons x xs ih =>
    have hx := hpre x (List.mem_cons_self x xs)
    have hxs : ∀ y ∈ xs, p y = true := fun y hy => hpre y (List.mem_cons_of_mem x hy)
    obtain ⟨h1, h2⟩ := ih hxs
    constructor
    · rw [List.cons_append, List.takeWhile_cons, hx]
      simp [h1]
    · rw [List.cons_append, List.dropWhile_cons, hx]
      simp [h2]

/-- C7: a referenced name is quote-stripped and split on its first dot, an
undotted name defaults to schema public; and every ForeignKey recorded
anywhere by parse_sql stores a referenced schema only when it differs from
public — in the spec's examples, auth.users is stored as schema auth while
public.users is stored with no schema. -/
theorem c7_foreign_key_schema_resolution :
    (∀ (s pre post : List Char),
        s.filter (fun c => c ≠ '"') = pre ++ '.' :: post → '.' ∉ pre →
        parse_qualified_name s = (pre, post))
    ∧ (∀ s : List Char, '.' ∉ s.filter (fun c => c ≠ '"') →
        parse_qualified_name s = (DEFAULT_SCHEMA, s.filter (fun c => c ≠ '"')))
    ∧ (∀ sql : List Char, DatabaseFksOk (parse_sql sql))
    ∧ ((parse_sql c7_sql_qualified).get_table (chars "billing") (chars "invoices")).map
        (fun t => t.foreign_keys.map (fun fk => (fk.ref_schema, fk.ref_table))) =
      some [(some (chars "auth"), chars "users")]
    ∧ ((parse_sql c7_sql_public).get_table (chars "public") (chars "posts")).map
        (fun t => t.foreign_keys.map (fun fk => (fk.ref_schema, fk.ref_table))) =
      some [(none, chars "users")] := by
  refine ⟨?_, ?_, ?_, by decide, by decide⟩
  · intro s pre post hf hpre
    have hc : (pre ++ '.' :: post).contains '.' = true := by
      simp
    have htk := takeWhile_append_stop (fun c => c ≠ '.') pre post '.'
      (fun x hx => by
        simp only [decide_eq_true_eq]
        exact fun heq => hpre (heq ▸ hx))
      (by simp)
    simp only [parse_qualified_name, hf, hc, if_true]
    rw [htk.1, htk.2]
    rfl
  · intro s h
    have hc : ¬ ((s.filter (fun c => c ≠ '"')).contains '.' = true) := by
      simpa using h
    simp only [parse_qualified_name]
    rw [if_neg hc]
  · intro sql
    simp only [parse_sql]
    exact databaseFksOk_parse_alter_tables sql _
      (foldl_preserve DatabaseFksOk _
        (fun a b ha => databaseFksOk_add_table a (parse_table b.1 b.2) ha
          (tableFksOk_parse_table b.1 b.2))
        (parse_create_tables sql) ⟨[]⟩ databaseFksOk_empty)

/-- C7 witness: the split clauses at the concrete names auth.users and
users. -/
theorem c7_foreign_key_schema_resolution_witness :
    parse_qualified_name (chars "auth.users") = (chars "auth", chars "users")
    ∧ parse_qualified_name (chars "users") = (chars "public", chars "users") := by
  exact ⟨c7_foreign_key_schema_resolution.1 (chars "auth.users") (chars "auth")
           (chars "users") (by decide) (by decide),
         c7_foreign_key_schema_resolution.2.1 (chars "users") (by decide)⟩

/-- Key-preserving entry rewrites keep the key sequence. -/
lemma map_fst_if_keep {β : Type} (sch : List Char) (g : List Char × β → β) :
    ∀ l : List (List Char × β),
      (l.map (fun p => if p.1 = sch then (p.1, g p) else p)).map Prod.fst =
        l.map Prod.fst := by
  intro l
  induction l with
  | nil => rfl
  | cons p ps ih =>
    by_cases hp : p.1 = sch <;> simp [hp, ih]

/-- Adding a table owned by key `k` keeps a schema entry well formed. -/
lemma schemaWF_add_table (k : List Char) (s : Schema) (t : Table)
    (hs : SchemaWF k s) (ht : t.schema = k) : SchemaWF k (s.add_table t) := by
  obtain ⟨hname, hentries, hnodup⟩ := hs
  refine ⟨hname, ?_, ?_⟩
  · intro q hq
    change q ∈ dictInsert t.name t s.tables at hq
    rcases mem_dictInsert _ _ _ _ hq with h1 | h1
    · exact hentries q h1
    · rw [h1]
      exact ⟨rfl, ht⟩
  · change ((dictInsert t.name t s.tables).map Prod.fst).Nodup
    exact dictInsert_nodup _ _ _ hnodup

/-- Database.add_table keeps the database well formed. -/
lemma databaseWF_add_table (db : Database) (t : Table) (h : DatabaseWF db) :
    DatabaseWF (db.add_table t) := by
  obtain ⟨hent, hnd⟩ := h
  cases hg : dictGet t.schema db.schemas with
  | some s =>
    constructor
    · intro p hp
      simp only [Database.add_table, Database.get_schema, hg] at hp
      rcases mem_dictInsert _ _ _ _ hp with h1 | h1
      · exact hent p h1
      · rw [h1]
        exact schemaWF_add_table t.schema s t
          (hent (t.schema, s) (dictGet_some_mem _ _ _ hg)) rfl
    · simp only [Database.add_table, Database.get_schema, hg]
      exact dictInsert_nodup _ _ _ hnd
  | none =>
    have hnotmem := dictGet_none_not_mem t.schema db.schemas hg
    constructor
    · intro p hp
      simp only [Database.add_table, Database.get_schema, hg] at hp
      rcases mem_dictInsert _ _ _ _ hp with h1 | h1
      · rcases List.mem_append.mp h1 with h2 | h2
        · exact hent p h2
        · rw [List.mem_singleton.mp h2]
          exact ⟨rfl, fun q hq => absurd hq (List.not_mem_nil q), List.nodup_nil⟩
      · rw [h1]
        refine schemaWF_add_table t.schema ⟨t.schema, []⟩ t
          ⟨rfl, fun q hq => absurd hq (List.not_mem_nil q), List.nodup_nil⟩ rfl
    · simp only [Database.add_table, Database.get_schema, hg]
      apply dictInsert_nodup
      rw [List.map_append, List.nodup_append]
      refine ⟨hnd, by simp, ?_⟩
      intro a ha hb
      simp only [List.map_cons, List.map_nil, List.mem_singleton] at hb
      exact hnotmem (hb ▸ ha)

/-- Database.modify_table with a name- and schema-preserving rewrite keeps
the database well formed. -/
lemma databaseWF_modify_table (db : Database) (sch nm : List Char) (f : Table → Table)
    (h : DatabaseWF db)
    (hf : ∀ t : Table, (f t).name = t.name ∧ (f t).schema = t.schema) :
    DatabaseWF (db.modify_table sch nm f) := by
  obtain ⟨hent, hnd⟩ := h
  constructor
  · intro p hp
    simp only [Database.modify_table] at hp
    rcases List.mem_map.mp hp with ⟨p0, hp0, hgp⟩
    obtain ⟨hn0, he0, hd0⟩ := hent p0 hp0
    by_cases hps : p0.1 = sch
    · rw [if_pos hps] at hgp
      subst hgp
      refine ⟨hn0, ?_, ?_⟩
      · intro q hq
        change q ∈ p0.2.tables.map _ at hq
        rcases List.mem_map.mp hq with ⟨q0, hq0, hgq⟩
        obtain ⟨hqn0, hqs0⟩ := he0 q0 hq0
        by_cases hqn : q0.1 = nm
        · rw [if_pos hqn] at hgq
          rw [← hgq]
          exact ⟨(hf q0.2).1.trans hqn0, (hf q0.2).2.trans hqs0⟩
        · rw [if_neg hqn] at hgq
          rw [← hgq]
          exact ⟨hqn0, hqs0⟩
      · change ((p0.2.tables.map _).map Prod.fst).Nodup
        rw [map_fst_if_keep nm (fun q => f q.2) p0.2.tables]
        exact hd0
    · rw [if_neg hps] at hgp
      subst hgp
      exact ⟨hn0, he0, hd0⟩
  · simp only [Database.modify_table]
    rw [map_fst_if_keep sch _ db.schemas]
    exact hnd

/-- apply_alter_pk keeps the database well formed. -/
lemma databaseWF_apply_alter_pk (db : Database) (g : AlterPkGroups)
    (h : DatabaseWF db) : DatabaseWF (apply_alter_pk db g) := by
  simp only [apply_alter_pk]
  set pq := parse_qualified_name (g.table_raw.filter (fun c => c ≠ '"')) with hpq
  cases hget : db.get_table pq.1 pq.2 with
  | none => simp only [hget]; exact h
  | some t0 =>
    simp only [hget]
    exact databaseWF_modify_table db pq.1 pq.2 _ h (fun t => ⟨rfl, rfl⟩)

/-- apply_alter_fk keeps the database well formed. -/
lemma databaseWF_apply_alter_fk (db : Database) (g : AlterFkGroups)
    (h : DatabaseWF db) : DatabaseWF (apply_alter_fk db g) := by
  simp only [apply_alter_fk]
  set pq := parse_qualified_name (g.table_raw.filter (fun c => c ≠ '"')) with hpq
  cases hget : db.get_table pq.1 pq.2 with
  | none => simp only [hget]; exact h
  | some t0 =>
    simp only [hget]
    exact databaseWF_modify_table db pq.1 pq.2 _ h (fun t => ⟨rfl, rfl⟩)

/-- apply_alter_unique keeps the database well formed. -/
lemma databaseWF_apply_alter_unique (db : Database) (g : AlterUniqueGroups)
    (h : DatabaseWF db) : DatabaseWF (apply_alter_unique db g) := by
  simp only [apply_alter_unique]
  set pq := parse_qualified_name (g.table_raw.filter (fun c => c ≠ '"')) with hpq
  cases hget : db.get_table pq.1 pq.2 with
  | none => simp only [hget]; exact h
  | some t0 =>
    simp only [hget]
    exact databaseWF_modify_table db pq.1 pq.2 _ h (fun t => ⟨rfl, rfl⟩)

/-- The ALTER pass keeps the database well formed. -/
lemma databaseWF_parse_alter_tables (sql : List Char) (db : Database)
    (h : DatabaseWF db) : DatabaseWF (parse_alter_tables sql db) := by
  simp only [parse_alter_tables]
  exact foldl_preserve DatabaseWF apply_alter_unique
    (fun a b ha => databaseWF_apply_alter_unique a b ha) _ _
    (foldl_preserve DatabaseWF apply_alter_fk
      (fun a b ha => databaseWF_apply_alter_fk a b ha) _ _
      (foldl_preserve DatabaseWF apply_alter_pk
        (fun a b ha => databaseWF_apply_alter_pk a b ha) _ _ h))

/-- C10: every database parse_sql produces is well formed — schema entries
carry their key as name, table entries carry their key as name and their
schema's key as owning schema, and both key sequences are duplicate-free,
so at most one table lives under each (schema, name); on the concrete input
with two CREATE TABLE t statements the later two-column table replaces the
earlier one and the count stays one. -/
theorem c10_database_wellformed_replacement :
    (∀ sql : List Char, DatabaseWF (parse_sql sql))
    ∧ ((parse_sql c10_sql_dup).get_table (chars "public") (chars "t")).map
        (fun t => t.columns.map (fun c => c.name)) = some [chars "a", chars "b"]
    ∧ (parse_sql c10_sql_dup).table_count = 1 := by
  refine ⟨?_, by decide, by decide⟩
  intro sql
  simp only [parse_sql]
  exact databaseWF_parse_alter_tables sql _
    (foldl_preserve DatabaseWF _
      (fun a b ha => databaseWF_add_table a (parse_table b.1 b.2) ha)
      (parse_create_tables sql) ⟨[]⟩
      ⟨fun p hp => absurd hp (List.not_mem_nil p), List.nodup_nil⟩)
